import Mathlib

/-!
Verification of the translation-overlay pipeline of SideBySideTranslator.

The definitions below are a shallow embedding of the JavaScript sources:
* `src/extension/background.js` — TSV normalization (`parseTsvToLineBlocks`),
  tiered image fetching (`fetchImageWithReferrer`, `fetchImageViaContent`,
  the fetch fallback inside `handleImagePipeline`), and the per-block
  confidence-filter / translation loop of `handleImagePipeline`;
* `src/unnamed/part_000` — the DeepL-based variant of `handleImagePipeline`
  (batched translation step);
* `src/unnamed/part_001` and `src/unnamed/part_002` — the content-script
  queue/scheduler (`processQueue`, `scanAndTranslate`) and the overlay
  renderer (`overlayTranslations` in part_002).

JavaScript numbers are modelled as `ℚ` (the sources only ever add, divide,
compare and min/max finitely many finite values; `NaN` is modelled by
`Option.none` at the points where the sources test `Number.isFinite`).
Strings are manipulated at the `List Char` level so that every operation is
structural and kernel-evaluable.
-/

namespace SBS

/-! ## Character-level string utilities (JS `trim`, `split`, `Number`) -/

/-- The whitespace characters relevant to JS `String.prototype.trim` on the
data appearing in this pipeline (space, tab, CR, LF, vertical tab, form feed). -/
def jsWhitespace (c : Char) : Bool :=
  c = ' ' || c = '\t' || c = '\n' || c = '\r' || c = '\x0b' || c = '\x0c'

/-- Trim JS whitespace from both ends of a character list. -/
def trimChars (l : List Char) : List Char :=
  ((l.dropWhile jsWhitespace).reverse.dropWhile jsWhitespace).reverse

/-- JS `s.trim()`. -/
def jsTrim (s : String) : String :=
  ⟨trimChars s.data⟩

/-- Split a character list at every occurrence of `sep` (JS
`String.prototype.split` with a one-character separator). -/
def splitCharAux (sep : Char) : List Char → List Char → List (List Char)
  | [], acc => [acc.reverse]
  | c :: rest, acc =>
    if c = sep then acc.reverse :: splitCharAux sep rest []
    else splitCharAux sep rest (c :: acc)

/-- JS `s.split(sep)` for a one-character separator. -/
def splitChar (sep : Char) (s : String) : List String :=
  (splitCharAux sep s.data []).map (fun l => ⟨l⟩)

/-- Split at every `\n`, dropping a `\r` immediately before the `\n`
(JS `s.split(/\r?\n/)`). -/
def splitLinesAux : List Char → List Char → List (List Char)
  | [], acc => [acc.reverse]
  | c :: rest, acc =>
    if c = '\n' then
      (match acc with
       | '\r' :: acc2 => acc2.reverse
       | acc1 => acc1.reverse) :: splitLinesAux rest []
    else splitLinesAux rest (c :: acc)

/-- JS `tsv.split(/\r?\n/)`. -/
def splitLines (s : String) : List String :=
  (splitLinesAux s.data []).map (fun l => ⟨l⟩)

/-- Numeric value of a list of decimal digits. -/
def digitsVal (l : List Char) : Nat :=
  l.foldl (fun n c => 10 * n + (c.toNat - 48)) 0

/-- Parse an unsigned decimal numeral, optionally with a fractional part
(`"12"`, `"12.5"`, `"12."`, `".5"`).  Anything else is `none` (JS `NaN`).
This models the decimal subset of JS `Number()` actually exercised by
Tesseract TSV cells; exotic forms (hex, exponents, `Infinity`) are out of
scope and map to `none`. -/
def parseUnsignedDec (cs : List Char) : Option ℚ :=
  match splitCharAux '.' cs [] with
  | [a] =>
    if a ≠ [] ∧ a.all Char.isDigit then some (digitsVal a : ℚ) else none
  | [a, b] =>
    if (a ≠ [] ∨ b ≠ []) ∧ a.all Char.isDigit ∧ b.all Char.isDigit then
      some ((digitsVal a : ℚ) + (digitsVal b : ℚ) / (10 : ℚ) ^ b.length)
    else none
  | _ => none

/-- JS `Number(s)` on the decimal fragment of its grammar: whitespace is
trimmed, the empty string is `0`, an optional sign precedes the numeral,
and unparseable input is `none` (`NaN`). -/
def jsNumber (s : String) : Option ℚ :=
  match trimChars s.data with
  | [] => some 0
  | '-' :: rest => (parseUnsignedDec rest).map (fun q => -q)
  | '+' :: rest => parseUnsignedDec rest
  | t => parseUnsignedDec t

/-! ## TSV normalization (`parseTsvToLineBlocks`, background.js 154–263) -/

/-- A bounding box `{x0, y0, x1, y1}` in native-image pixel space. -/
structure RawBBox where
  x0 : ℚ
  y0 : ℚ
  x1 : ℚ
  y1 : ℚ
deriving DecidableEq, Repr

/-- A normalized line block `{text, confidence, bbox}`. -/
structure LineBlock where
  text : String
  confidence : ℚ
  bbox : RawBBox
deriving DecidableEq, Repr

/-- The column indices located in the TSV header row. -/
structure HeaderIdx where
  level : Nat
  page : Nat
  block : Nat
  par : Nat
  line : Nat
  word : Nat
  left : Nat
  top : Nat
  width : Nat
  height : Nat
  conf : Nat
  text : Nat
deriving DecidableEq, Repr

/-- The twelve column names `parseTsvToLineBlocks` requires. -/
def requiredCols : List String :=
  ["level", "page_num", "block_num", "par_num", "line_num", "word_num",
   "left", "top", "width", "height", "conf", "text"]

/-- JS `header.indexOf(name)`, as an `Option` (`none` for `-1`). -/
def findCol (header : List String) (name : String) : Option Nat :=
  header.findIdx? (· = name)

/-- Locate all required columns; `none` as soon as one is absent
(background.js 163–193). -/
def getIdx (header : List String) : Option HeaderIdx := do
  let level ← findCol header "level"
  let page ← findCol header "page_num"
  let block ← findCol header "block_num"
  let par ← findCol header "par_num"
  let line ← findCol header "line_num"
  let word ← findCol header "word_num"
  let left ← findCol header "left"
  let top ← findCol header "top"
  let width ← findCol header "width"
  let height ← findCol header "height"
  let conf ← findCol header "conf"
  let text ← findCol header "text"
  pure ⟨level, page, block, par, line, word, left, top, width, height, conf, text⟩

/-- A participating word-level row, reduced to what the grouping loop uses:
its composite key string, trimmed text fragment, confidence, and box. -/
structure RowItem where
  key : String
  text : String
  conf : ℚ
  bbox : RawBBox
deriving DecidableEq, Repr

/-- JS `cols[i]` inside a template literal: an out-of-range access prints
as the string `"undefined"`. -/
def colStr (cols : List String) (i : Nat) : String :=
  (cols.get? i).getD "undefined"

/-- JS `Number(cols[i])`: out-of-range access gives `Number(undefined) = NaN`. -/
def colNum (cols : List String) (i : Nat) : Option ℚ :=
  (cols.get? i).bind jsNumber

/-- One iteration of the row loop of `parseTsvToLineBlocks`
(background.js 197–247), on the already-split columns of one row: `some`
with the row's key/text/conf/bbox when the row participates, `none` when
any of the `continue` guards fires.  The guard
`level !== 5 || !Number.isFinite(wordNum) || wordNum <= 0` keeps only
word-level rows: a `NaN` level or word number falls into the catch-all. -/
def parseRowCols (h : HeaderIdx) (cols : List String) : Option RowItem :=
  if cols.length ≤ h.text then none
  else
    match colNum cols h.level, colNum cols h.word with
    | some level, some wordNum =>
      if level ≠ 5 ∨ wordNum ≤ 0 then none
      else
        match colNum cols h.conf with
        | some conf =>
          if conf < 0 then none
          else
            if jsTrim (colStr cols h.text) = "" then none
            else
              match colNum cols h.left, colNum cols h.top,
                    colNum cols h.width, colNum cols h.height with
              | some left, some top, some width, some height =>
                if width ≤ 0 ∨ height ≤ 0 then none
                else
                  some ⟨colStr cols h.page ++ "-" ++ colStr cols h.block
                          ++ "-" ++ colStr cols h.par ++ "-" ++ colStr cols h.line,
                        jsTrim (colStr cols h.text), conf,
                        ⟨left, top, left + width, top + height⟩⟩
              | _, _, _, _ => none
        | none => none
    | _, _ => none

/-- The row loop body applied to one raw TSV row. -/
def parseRow (h : HeaderIdx) (row : String) : Option RowItem :=
  parseRowCols h (splitChar '\t' row)

/-- An accumulated group: text fragments, confidences, running bbox union. -/
structure Group where
  parts : List String
  confs : List ℚ
  bbox : RawBBox
deriving DecidableEq, Repr

/-- Union of two bounding boxes (min of lefts/tops, max of rights/bottoms). -/
def bboxUnion (a b : RawBBox) : RawBBox :=
  ⟨min a.x0 b.x0, min a.y0 b.y0, max a.x1 b.x1, max a.y1 b.y1⟩

/-- Extend an existing group with one more row (background.js 241–246). -/
def extendGroup (g : Group) (it : RowItem) : Group :=
  ⟨g.parts ++ [it.text], g.confs ++ [it.conf], bboxUnion g.bbox it.bbox⟩

/-- The singleton group created for a fresh key (background.js 232–238). -/
def singletonGroup (it : RowItem) : Group :=
  ⟨[it.text], [it.conf], it.bbox⟩

/-- Insert one row into the (insertion-ordered) group map; a JS `Map`
keyed by the composite key string is modelled as an association list
preserving insertion order. -/
def insertItem : List (String × Group) → RowItem → List (String × Group)
  | [], it => [(it.key, singletonGroup it)]
  | (k, g) :: rest, it =>
    if k = it.key then (k, extendGroup g it) :: rest
    else (k, g) :: insertItem rest it

/-- The rows of the TSV body that participate in grouping, in row order. -/
def participatingRows (h : HeaderIdx) (body : List String) : List RowItem :=
  body.filterMap (parseRow h)

/-- Fold all participating rows into the group map. -/
def buildGroups (items : List RowItem) : List (String × Group) :=
  items.foldl insertItem []

/-- Lookup in the group map by key. -/
def lookupGroup : List (String × Group) → String → Option Group
  | [], _ => none
  | (k, g) :: rest, key => if k = key then some g else lookupGroup rest key

/-- JS `Array.prototype.join(joiner)`. -/
def joinWith (j : String) : List String → String
  | [] => ""
  | [p] => p
  | p :: q :: ps => p ++ j ++ joinWith j (q :: ps)

/-- JS `confs.reduce((sum, c) => sum + c, 0)`. -/
def ratSum (l : List ℚ) : ℚ :=
  l.foldl (· + ·) 0

/-- Turn a finished group into a block (background.js 250–258): join the
fragments, trim, skip if empty, divide the confidence sum by
`confs.length || 1`. -/
def groupToBlock (joiner : String) (g : Group) : Option LineBlock :=
  let text := jsTrim (joinWith joiner g.parts)
  if text = "" then none
  else
    some ⟨text,
          ratSum g.confs / (if g.confs.length = 0 then 1 else (g.confs.length : ℚ)),
          g.bbox⟩

/-- The sort comparator `a.bbox.y0 - b.bbox.y0 || a.bbox.x0 - b.bbox.x0`
read as a total preorder: `a` weakly precedes `b`. -/
def blockLE (a b : LineBlock) : Bool :=
  decide (a.bbox.y0 < b.bbox.y0 ∨ (a.bbox.y0 = b.bbox.y0 ∧ a.bbox.x0 ≤ b.bbox.x0))

/-- Stable insertion keeping `x` after every element that weakly precedes it. -/
def insertStable (x : LineBlock) : List LineBlock → List LineBlock
  | [] => [x]
  | y :: ys => if blockLE y x then y :: insertStable x ys else x :: y :: ys

/-- The stable sort of JS `Array.prototype.sort`, for this comparator. -/
def sortBlocks (l : List LineBlock) : List LineBlock :=
  l.foldl (fun acc x => insertStable x acc) []

/-- The non-empty lines of the TSV (`tsv.split(/\r?\n/).filter(Boolean)`). -/
def tsvRows (tsv : String) : List String :=
  (splitLines tsv).filter (· ≠ "")

/-- `parseTsvToLineBlocks` (background.js 154–263).  The `!tsv` guard of the
source is subsumed by the row-count guard: an empty string yields no rows. -/
def parseTsvToLineBlocks (tsv : String) (joiner : String) : List LineBlock :=
  let rows := tsvRows tsv
  if rows.length < 2 then []
  else
    match rows with
    | [] => []
    | headerRow :: body =>
      match getIdx (splitChar '\t' headerRow) with
      | none => []
      | some h =>
        let groups := buildGroups (participatingRows h body)
        sortBlocks (groups.filterMap (fun kg => groupToBlock joiner kg.2))

/-! ## Fetch resolver (background.js 350–459, part_000 61–121) -/

/-- An opaque binary payload. -/
structure Blob where
  bytes : List Nat
deriving DecidableEq, Repr

/-- The outcome of one `fetch`: HTTP status flag plus body. -/
structure JsResponse where
  ok : Bool
  status : Nat
  blob : Blob
deriving DecidableEq, Repr

/-- The three acquisition tiers, in fallback order. -/
inductive Tier where
  | referrer
  | direct
  | relayed
deriving DecidableEq, Repr

/-- The content script's reply to a `FETCH_IMAGE` relay request. -/
structure ContentResponse where
  ok : Bool
  buffer : Option (List Nat)
  error : Option String
deriving DecidableEq, Repr

/-- `fetchImageViaContent` (background.js 412–425): reject a missing reply,
a failed reply, or a reply without a buffer, using the reply's error string
when it is truthy. -/
def fetchImageViaContent (resp : Option ContentResponse) : Except String Blob :=
  match resp with
  | none => .error "Unknown content fetch error"
  | some r =>
    if r.ok = false ∨ r.buffer = none then
      .error (match r.error with
              | some e => if e = "" then "Unknown content fetch error" else e
              | none => "Unknown content fetch error")
    else .ok ⟨r.buffer.getD []⟩

/-- The tiered fetch inside `handleImagePipeline` (background.js 440–460):
try the referrer-spoofed fetch, on exception the direct fetch, on exception
the content-script relay.  `t1` and `t2` are the outcomes of the first two
tiers; the second component records which tiers were attempted, in order. -/
def fetchWithFallback (t1 t2 : Except String Blob)
    (t3resp : Option ContentResponse) : Except String Blob × List Tier :=
  match t1 with
  | .ok b => (.ok b, [Tier.referrer])
  | .error _ =>
    match t2 with
    | .ok b => (.ok b, [Tier.referrer, Tier.direct])
    | .error _ =>
      (fetchImageViaContent t3resp, [Tier.referrer, Tier.direct, Tier.relayed])

/-- The no-referrer degenerate path of `fetchImageWithReferrer`:
`(await fetch(url)).blob()` without checking `response.ok`. -/
def plainFetchBlob (outcome : Except String JsResponse) : Except String Blob :=
  match outcome with
  | .error e => .error e
  | .ok r => .ok r.blob

/-- `fetchImageWithReferrer` (background.js 350–409, identically
part_000 61–106), instrumented with the global `webRequest` listener state:
`listeners` is the list of installed interceptor registrations, `id1`/`id2`
the fresh registrations for `onBeforeSendHeaders`/`onHeadersReceived`.
Both are installed before the fetch, and the `finally` block removes both
on every exit path (success, non-ok status, thrown error). -/
def fetchImageWithReferrer (referrer : String) (id1 id2 : Nat)
    (outcome : Except String JsResponse) (listeners : List Nat) :
    Except String Blob × List Nat :=
  if referrer = "" then (plainFetchBlob outcome, listeners)
  else
    let installed := listeners ++ [id1, id2]
    let result : Except String Blob :=
      match outcome with
      | .error e => .error e
      | .ok r =>
        if r.ok = false then .error ("Failed to fetch: " ++ toString r.status)
        else .ok r.blob
    (result, (installed.erase id1).erase id2)

/-! ## Confidence filter and per-block translation loop
(background.js 505–599) -/

/-- One OCR block as the filter loop sees it: each field is `some` exactly
when the JS value has the type the loop tests for (`typeof === "number"`,
`typeof === "string"`, all four bbox coordinates numbers). -/
structure OcrBlock where
  confidence : Option ℚ
  conf : Option ℚ
  text : Option String
  bbox : Option RawBBox
deriving DecidableEq, Repr

/-- The confidence fallback chain `block?.confidence` / `block?.conf` / `0`. -/
def blockConfidence (b : OcrBlock) : ℚ :=
  match b.confidence with
  | some c => c
  | none =>
    match b.conf with
    | some c => c
    | none => 0

def MIN_CONFIDENCE : ℚ := 30

/-- A translated block `{text, original, bbox}`. -/
structure TranslatedBlock where
  text : String
  original : String
  bbox : RawBBox
deriving DecidableEq, Repr

/-- The loop state: output blocks, the three skip counters, and (as
instrumentation) the trace of translator invocations in call order. -/
structure LoopState where
  translatedBlocks : List TranslatedBlock
  skippedLowConfidence : Nat
  skippedNoText : Nat
  skippedNoBbox : Nat
  calls : List String
deriving DecidableEq, Repr

def initLoopState : LoopState := ⟨[], 0, 0, 0, []⟩

/-- One iteration of the `for (const block of ocrBlocks)` loop
(background.js 547–599).  Note the source's duplicated bbox guard:
`if (!bbox) continue;` fires first, so the following
`if (!bbox) { skippedNoBbox++; continue; }` is unreachable and the
`skippedNoBbox` counter is never incremented. -/
def processBlock (tr : String → String) (st : LoopState) (b : OcrBlock) :
    LoopState :=
  if blockConfidence b < MIN_CONFIDENCE then
    { st with skippedLowConfidence := st.skippedLowConfidence + 1 }
  else
    if jsTrim (b.text.getD "") = "" then
      { st with skippedNoText := st.skippedNoText + 1 }
    else
      match b.bbox with
      | none => st
      | some bb =>
        { st with
          translatedBlocks := st.translatedBlocks ++
            [⟨tr (jsTrim (b.text.getD "")), jsTrim (b.text.getD ""), bb⟩],
          calls := st.calls ++ [jsTrim (b.text.getD "")] }

/-- The whole filter/translate loop over the OCR blocks, sequentially in
order, with `tr` the translator collaborator. -/
def processBlocks (tr : String → String) (blocks : List OcrBlock) : LoopState :=
  blocks.foldl (processBlock tr) initLoopState

/-- Which blocks survive the filter, and with what text/bbox (used to state
properties of the loop; follows the loop's guards). -/
def surviving (b : OcrBlock) : Option (String × RawBBox) :=
  if blockConfidence b < MIN_CONFIDENCE then none
  else
    if jsTrim (b.text.getD "") = "" then none
    else
      match b.bbox with
      | none => none
      | some bb => some (jsTrim (b.text.getD ""), bb)

/-! ## The DeepL variant's translation step (part_000 294–312) -/

/-- A line block of the DeepL-based pipeline. -/
structure P0Block where
  text : String
  bbox : RawBBox
  isVertical : Bool
deriving DecidableEq, Repr

/-- A translated block of the DeepL-based pipeline. -/
structure P0Translated where
  text : String
  original : String
  bbox : RawBBox
  isVertical : Bool
deriving DecidableEq, Repr

/-- The translation step of the DeepL-based `handleImagePipeline`
(part_000 294–312): ONE batched `callDeepLApi` call carrying every block
text, then a positional zip of the returned translations with the blocks.
`api` models the API's translations array for a given text list; the
second component is the trace of API invocations (each entry the list of
texts sent in that call). -/
def deeplTranslateStep (api : List String → List String)
    (blocks : List P0Block) : Except String (List P0Translated) × List (List String) :=
  let texts := blocks.map (·.text)
  let translations := api texts
  if translations.length ≠ blocks.length then
    (.error "Translation count mismatch", [texts])
  else
    (.ok (blocks.zipWith (fun b t => ⟨t, b.text, b.bbox, b.isVertical⟩) translations),
     [texts])

/-! ## Overlay renderer (part_002 107–147) -/

/-- The geometry of one rendered overlay `div`. -/
structure OverlayRegion where
  left : ℚ
  top : ℚ
  width : ℚ
  height : ℚ
  fontSize : ℚ
deriving DecidableEq, Repr

/-- The placement computed for one block by `overlayTranslations`:
`scaleX = img.width / originalWidth`, `scaleY = img.height / originalHeight`,
position and size are the native bbox scaled, font size is 80% of the
scaled height. -/
def overlayRegion (displayedW displayedH nativeW nativeH : ℚ)
    (bbox : RawBBox) : OverlayRegion :=
  let scaleX := displayedW / nativeW
  let scaleY := displayedH / nativeH
  ⟨bbox.x0 * scaleX, bbox.y0 * scaleY,
   (bbox.x1 - bbox.x0) * scaleX, (bbox.y1 - bbox.y0) * scaleY,
   (bbox.y1 - bbox.y0) * scaleY * (4 / 5)⟩

/-- `overlayTranslations` (part_002 107–147), restricted to the geometry it
computes for each block, in order. -/
def overlayTranslations (displayedW displayedH nativeW nativeH : ℚ)
    (blocks : List TranslatedBlock) : List OverlayRegion :=
  blocks.map (fun b => overlayRegion displayedW displayedH nativeW nativeH b.bbox)

/-! ## Task queue / scheduler (part_001 36–113, part_002 36–105) -/

/-- The lifecycle status of one image task.  The content script stores
`queued`/`done` in `img.dataset.status` (resetting to `""` on failure);
`processing` is the phase between `imageQueue.shift()` and the completion
callback. -/
inductive TStatus where
  | queued
  | processing
  | done
  | failed
deriving DecidableEq, Repr

/-- The scheduler state: per-task status (index = task id), the FIFO
`imageQueue` of task ids, and the `activeProcessors` counter. -/
structure QState where
  stat : List TStatus
  queue : List Nat
  active : Nat
deriving DecidableEq, Repr

/-- `const MAX_CONCURRENT = 1` (process one image at a time). -/
def MAX_CONCURRENT : Nat := 1

/-- Transition labels: dispatching a task from the queue head, or a task's
promise settling (successfully or not). -/
inductive QLabel where
  | dispatch (i : Nat)
  | finish (i : Nat) (ok : Bool)
deriving DecidableEq, Repr

/-- The scheduler's step relation.  `dispatch` is the body of
`processQueue` past its guard (`activeProcessors >= MAX_CONCURRENT ||
imageQueue.length === 0` returns): increment `activeProcessors`, shift the
queue, start processing the head task.  `finish` is the settling of a
dispatched task's promise: mark it done (success) or failed (the `.catch`
path, which resets `img.dataset.status`), and let `.finally` decrement
`activeProcessors`. -/
inductive QStep : QState → QLabel → QState → Prop where
  | dispatch {s : QState} {i : Nat} {rest : List Nat} :
      s.active < MAX_CONCURRENT →
      s.queue = i :: rest →
      QStep s (QLabel.dispatch i)
        ⟨s.stat.set i TStatus.processing, rest, s.active + 1⟩
  | finish {s : QState} {i : Nat} {ok : Bool} :
      s.stat[i]? = some TStatus.processing →
      QStep s (QLabel.finish i ok)
        ⟨s.stat.set i (if ok then TStatus.done else TStatus.failed),
         s.queue, s.active - 1⟩

/-- The state after `scanAndTranslate` enqueues `n` fresh tasks. -/
def initQState (n : Nat) : QState :=
  ⟨List.replicate n TStatus.queued, List.range n, 0⟩

/-- Reachability from the initial state under any interleaving of steps. -/
def QReachable (n : Nat) (s : QState) : Prop :=
  Relation.ReflTransGen (fun a b => ∃ l, QStep a l b) (initQState n) s

/-- The number of tasks currently in `processing` state. -/
def procCount (s : QState) : Nat :=
  s.stat.countP (fun st => decide (st = TStatus.processing))

/-- The scheduler invariant: the active counter counts exactly the
processing tasks and stays within the concurrency limit, queued ids are
in range, distinct, and still in `queued` state. -/
def QInv (s : QState) : Prop :=
  s.active = procCount s ∧
  s.active ≤ MAX_CONCURRENT ∧
  (∀ i ∈ s.queue, s.stat[i]? = some TStatus.queued) ∧
  s.queue.Nodup

/-! ## Discovery (`scanAndTranslate`, part_001 179–213, part_002 149–183) -/

/-- One `<img>` element as discovery sees it: rendered size and the
`data-status` marker (`""` models the unset/reset attribute, which is
falsy exactly like the empty string). -/
structure ImgEl where
  width : Nat
  height : Nat
  status : String
deriving DecidableEq, Repr

/-- The skip guard `img.width < minSize || img.height < minSize ||
img.dataset.status` (threshold 64 in part_001, 50 in part_002). -/
def imgSkipped (minSize : Nat) (img : ImgEl) : Bool :=
  decide (img.width < minSize) || decide (img.height < minSize) ||
    decide (img.status ≠ "")

/-- `img.dataset.status = "queued"`. -/
def markQueued (img : ImgEl) : ImgEl :=
  { img with status := "queued" }

/-- `scanAndTranslate`'s discovery pass over the document's images:
returns the updated document and the list of tasks pushed onto
`imageQueue`, in document order. -/
def scanDiscover (minSize : Nat) (doc : List ImgEl) : List ImgEl × List ImgEl :=
  doc.foldl
    (fun (acc : List ImgEl × List ImgEl) img =>
      if imgSkipped minSize img then (acc.1 ++ [img], acc.2)
      else (acc.1 ++ [markQueued img], acc.2 ++ [markQueued img]))
    ([], [])

/-! ## Spec-side helper predicates and functions (used in statements) -/

/-- A character list with no JS whitespace at either edge. -/
def NoEdgeWS (l : List Char) : Prop :=
  (∀ c, l.head? = some c → jsWhitespace c = false) ∧
  (∀ c, l.getLast? = some c → jsWhitespace c = false)

/-- A string that is non-empty and has no whitespace at either edge:
exactly the shape of every stored (trimmed, non-empty) text fragment. -/
def GoodStr (s : String) : Prop :=
  s.data ≠ [] ∧ NoEdgeWS s.data

/-- The participating rows carrying a given composite key, in row order. -/
def specGroup (items : List RowItem) (key : String) : List RowItem :=
  items.filter (fun it => decide (it.key = key))

/-- Union of a non-empty family of boxes, seeded with the first box. -/
def foldBBox (b : RawBBox) (bs : List RawBBox) : RawBBox :=
  bs.foldl bboxUnion b

/-- A group as stored in the map: non-empty, with well-trimmed fragments and
one confidence per fragment. -/
def GoodGroup (g : Group) : Prop :=
  g.parts ≠ [] ∧ (∀ p ∈ g.parts, GoodStr p) ∧ g.confs.length = g.parts.length

/-! ## Concrete inputs for witnesses and counterexamples -/

/-- The spec's normalizer-grouping example: header plus the two word rows
`line=1, word=1, "Hello", (0,0,10,10), conf 90` and
`line=1, word=2, "World", (10,0,20,10), conf 80`. -/
def exampleTsv : String :=
  "level\tpage_num\tblock_num\tpar_num\tline_num\tword_num\tleft\ttop\twidth\theight\tconf\ttext\n"
    ++ "5\t1\t1\t1\t1\t1\t0\t0\t10\t10\t90\tHello\n"
    ++ "5\t1\t1\t1\t1\t2\t10\t0\t10\t10\t80\tWorld"

/-- The header row of `exampleTsv`. -/
def exampleHeaderRow : String :=
  "level\tpage_num\tblock_num\tpar_num\tline_num\tword_num\tleft\ttop\twidth\theight\tconf\ttext"

/-- The body rows of `exampleTsv`. -/
def exampleBody : List String :=
  ["5\t1\t1\t1\t1\t1\t0\t0\t10\t10\t90\tHello",
   "5\t1\t1\t1\t1\t2\t10\t0\t10\t10\t80\tWorld"]

/-- The column indices of the canonical Tesseract TSV header. -/
def exampleHeaderIdx : HeaderIdx :=
  ⟨0, 1, 2, 3, 4, 5, 6, 7, 8, 9, 10, 11⟩

/-- A TSV whose only word row has confidence exactly 0. -/
def confZeroTsv : String :=
  "level\tpage_num\tblock_num\tpar_num\tline_num\tword_num\tleft\ttop\twidth\theight\tconf\ttext\n"
    ++ "5\t1\t1\t1\t1\t1\t0\t0\t10\t10\t0\tHi"

/-- A TSV whose header lacks the required `conf` column. -/
def noConfTsv : String :=
  "level\tpage_num\tblock_num\tpar_num\tline_num\tword_num\tleft\ttop\twidth\theight\ttext\n"
    ++ "5\t1\t1\t1\t1\t1\t0\t0\t10\t10\tHello"

/-- The header row of `noConfTsv`. -/
def noConfHeaderRow : String :=
  "level\tpage_num\tblock_num\tpar_num\tline_num\tword_num\tleft\ttop\twidth\theight\ttext"

/-- A word row with negative confidence (Tesseract's `-1` marker). -/
def negConfRow : String :=
  "5\t1\t1\t1\t1\t1\t0\t0\t10\t10\t-1\tBad"

/-- Two surviving blocks for the DeepL-variant translation step. -/
def exampleP0Blocks : List P0Block :=
  [⟨"Hola", ⟨0, 0, 10, 10⟩, false⟩, ⟨"Mundo", ⟨0, 10, 10, 20⟩, false⟩]

/-- An OCR block with usable confidence and text but no bbox. -/
def noBboxBlock : OcrBlock :=
  ⟨some 50, none, some "hi", none⟩

/-- A concrete translation API: one output per input text. -/
def api0 (ts : List String) : List String :=
  ts.map (fun s => s ++ "!")

/-- A concrete document: one eligible image, one icon-sized image, one
image already processed. -/
def discoveryDoc : List ImgEl :=
  [⟨100, 100, ""⟩, ⟨10, 10, ""⟩, ⟨100, 100, "done"⟩]

/-- The scheduler state reached from three fresh tasks after the first
dispatch. -/
def qStateAfterFirstDispatch : QState :=
  ⟨(List.replicate 3 TStatus.queued).set 0 TStatus.processing, [1, 2], 1⟩

/-! ## Lemmas: trimming and joining -/

theorem head?_append_left {l l' : List Char} (h : l ≠ []) :
    (l ++ l').head? = l.head? := by
  cases l with
  | nil => exact absurd rfl h
  | cons x xs => rfl

theorem getLast?_append_right {l l' : List Char} (h : l' ≠ []) :
    (l ++ l').getLast? = l'.getLast? := by
  rw [← List.head?_reverse, ← List.head?_reverse, List.reverse_append]
  exact head?_append_left (by simpa using h)

theorem getLast?_cons_ne {x : Char} {xs : List Char} (h : xs ≠ []) :
    (x :: xs).getLast? = xs.getLast? := by
  rw [← List.head?_reverse, ← List.head?_reverse, List.reverse_cons]
  exact head?_append_left (by simpa using h)

theorem dropWhile_head_not {p : Char → Bool} :
    ∀ {l : List Char} {c : Char} {t : List Char},
      List.dropWhile p l = c :: t → p c = false := by
  intro l
  induction l with
  | nil => intro c t h; simp [List.dropWhile] at h
  | cons x xs ih =>
    intro c t h
    rw [List.dropWhile_cons] at h
    by_cases hx : p x = true
    · rw [if_pos hx] at h; exact ih h
    · rw [if_neg hx] at h
      cases h
      simpa using hx

theorem dropWhile_eq_self {p : Char → Bool} {l : List Char}
    (h : ∀ c, l.head? = some c → p c = false) : l.dropWhile p = l := by
  cases l with
  | nil => rfl
  | cons x xs =>
    have := h x rfl
    simp [List.dropWhile_cons, this]

theorem getLast?_dropWhile {p : Char → Bool} :
    ∀ {l : List Char}, l.dropWhile p ≠ [] → (l.dropWhile p).getLast? = l.getLast? := by
  intro l
  induction l with
  | nil => intro h; simp [List.dropWhile] at h
  | cons x xs ih =>
    intro h
    rw [List.dropWhile_cons]
    rw [List.dropWhile_cons] at h
    by_cases hx : p x = true
    · rw [if_pos hx] at h ⊢
      rw [ih h]
      have hxs : xs ≠ [] := by
        intro hnil
        apply h
        simp [hnil, List.dropWhile]
      exact (getLast?_cons_ne hxs).symm
    · rw [if_neg hx]

theorem trimChars_eq_self {l : List Char} (h : NoEdgeWS l) : trimChars l = l := by
  unfold trimChars
  rw [dropWhile_eq_self h.1]
  rw [dropWhile_eq_self (by intro c hc; exact h.2 c ((List.head?_reverse l).symm ▸ hc))]
  exact List.reverse_reverse l

theorem noEdgeWS_trimChars (l : List Char) : NoEdgeWS (trimChars l) := by
  unfold trimChars
  set d1 := l.dropWhile jsWhitespace with hd1
  set d2 := d1.reverse.dropWhile jsWhitespace with hd2
  constructor
  · intro c hc
    rw [List.head?_reverse] at hc
    have hne : d2 ≠ [] := by
      intro hnil; rw [hnil] at hc; simp at hc
    rw [getLast?_dropWhile hne, List.getLast?_reverse] at hc
    cases hh : d1 with
    | nil => rw [hh] at hc; simp at hc
    | cons a t =>
      rw [hh] at hc
      simp at hc
      subst hc
      exact dropWhile_head_not (hd1 ▸ hh)
  · intro c hc
    rw [List.getLast?_reverse] at hc
    cases hh : d2 with
    | nil => rw [hh] at hc; simp at hc
    | cons a t =>
      rw [hh] at hc
      simp at hc
      subst hc
      exact dropWhile_head_not (hd2 ▸ hh)

theorem trimChars_idem (l : List Char) : trimChars (trimChars l) = trimChars l :=
  trimChars_eq_self (noEdgeWS_trimChars l)

theorem goodStr_ne_empty {s : String} (h : GoodStr s) : s ≠ "" := by
  intro he
  exact h.1 (by rw [he])

theorem jsTrim_eq_self {s : String} (h : GoodStr s) : jsTrim s = s := by
  unfold jsTrim
  rw [trimChars_eq_self h.2]

theorem goodStr_jsTrim {s : String} (h : jsTrim s ≠ "") : GoodStr (jsTrim s) := by
  refine ⟨?_, noEdgeWS_trimChars s.data⟩
  intro hd
  apply h
  show (⟨(jsTrim s).data⟩ : String) = ""
  rw [hd]

theorem goodStr_joinWith (j : String) :
    ∀ parts, parts ≠ [] → (∀ p ∈ parts, GoodStr p) →
      GoodStr (joinWith j parts) := by
  intro parts
  induction parts with
  | nil => intro h; exact absurd rfl h
  | cons p ps ih =>
    intro _ hall
    have hp : GoodStr p := hall p (by simp)
    cases ps with
    | nil => exact hp
    | cons q qs =>
      have hrest : GoodStr (joinWith j (q :: qs)) :=
        ih (by simp) (fun x hx => hall x (List.mem_cons_of_mem p hx))
      have hdata : (joinWith j (p :: q :: qs)).data
          = p.data ++ ((j ++ joinWith j (q :: qs)).data) := by
        show (p ++ j ++ joinWith j (q :: qs)).data = _
        rw [String.data_append, String.data_append, String.data_append]
        rw [List.append_assoc]
      constructor
      · rw [hdata]
        simp [hp.1]
      · constructor
        · intro c hc
          rw [hdata, head?_append_left hp.1] at hc
          exact hp.2.1 c hc
        · intro c hc
          have hjr : (j ++ joinWith j (q :: qs)).data
              = j.data ++ (joinWith j (q :: qs)).data := String.data_append _ _
          rw [hdata, getLast?_append_right (by rw [hjr]; simp [hrest.1])] at hc
          rw [hjr, getLast?_append_right hrest.1] at hc
          exact hrest.2.2 c hc

/-! ## Lemmas: the group map -/

theorem foldl_extendGroup_parts (is : List RowItem) :
    ∀ g : Group, (is.foldl extendGroup g).parts = g.parts ++ is.map (·.text) := by
  induction is with
  | nil => intro g; simp
  | cons i tl ih =>
    intro g
    rw [List.foldl_cons, ih]
    simp [extendGroup]

theorem foldl_extendGroup_confs (is : List RowItem) :
    ∀ g : Group, (is.foldl extendGroup g).confs = g.confs ++ is.map (·.conf) := by
  induction is with
  | nil => intro g; simp
  | cons i tl ih =>
    intro g
    rw [List.foldl_cons, ih]
    simp [extendGroup]

theorem foldl_extendGroup_bbox (is : List RowItem) :
    ∀ g : Group, (is.foldl extendGroup g).bbox = foldBBox g.bbox (is.map (·.bbox)) := by
  induction is with
  | nil => intro g; simp [foldBBox]
  | cons i tl ih =>
    intro g
    rw [List.foldl_cons, ih]
    simp [extendGroup, foldBBox]

theorem buildGroups_concat (items : List RowItem) (it : RowItem) :
    buildGroups (items ++ [it]) = insertItem (buildGroups items) it := by
  unfold buildGroups
  rw [List.foldl_append]
  rfl

theorem lookupGroup_insertItem (gs : List (String × Group)) (it : RowItem)
    (key : String) :
    lookupGroup (insertItem gs it) key =
      if it.key = key then
        match lookupGroup gs it.key with
        | none => some (singletonGroup it)
        | some g => some (extendGroup g it)
      else lookupGroup gs key := by
  induction gs with
  | nil =>
    by_cases h : it.key = key <;> simp [insertItem, lookupGroup, h]
  | cons kg rest ih =>
    obtain ⟨k, g⟩ := kg
    by_cases hk : k = it.key
    · by_cases h : it.key = key
      · simp only [insertItem, if_pos hk, lookupGroup, if_pos h,
          if_pos (hk.trans h), if_pos hk]
      · simp only [insertItem, if_pos hk, lookupGroup, if_neg h,
          if_neg (fun hh : k = key => h (hk.symm.trans hh))]
    · by_cases h2 : k = key
      · have h : ¬it.key = key := fun hh => hk (h2.trans hh.symm)
        simp only [insertItem, if_neg hk, lookupGroup, if_pos h2, if_neg h]
      · simp only [insertItem, if_neg hk, lookupGroup, if_neg h2]
        rw [ih]

theorem lookupGroup_buildGroups (items : List RowItem) (key : String) :
    lookupGroup (buildGroups items) key =
      match specGroup items key with
      | [] => none
      | i :: is => some (is.foldl extendGroup (singletonGroup i)) := by
  induction items using List.reverseRecOn with
  | nil => simp [buildGroups, lookupGroup, specGroup]
  | append_singleton items it ih =>
    rw [buildGroups_concat, lookupGroup_insertItem]
    by_cases h : it.key = key
    · subst h
      rw [if_pos rfl]
      have hfil : specGroup (items ++ [it]) it.key = specGroup items it.key ++ [it] := by
        unfold specGroup
        rw [List.filter_append]
        simp
      rw [hfil, ih]
      cases hsg : specGroup items it.key with
      | nil => simp
      | cons i is =>
        show some (extendGroup (List.foldl extendGroup (singletonGroup i) is) it)
          = some (List.foldl extendGroup (singletonGroup i) (is ++ [it]))
        rw [List.foldl_append]
        rfl
    · rw [if_neg h]
      have hfil : specGroup (items ++ [it]) key = specGroup items key := by
        unfold specGroup
        rw [List.filter_append]
        simp [h]
      rw [hfil, ih]

theorem goodGroup_singleton {it : RowItem} (h : GoodStr it.text) :
    GoodGroup (singletonGroup it) := by
  refine ⟨by simp [singletonGroup], ?_, by simp [singletonGroup]⟩
  intro p hp
  simp [singletonGroup] at hp
  subst hp
  exact h

theorem goodGroup_extend {g : Group} {it : RowItem}
    (hg : GoodGroup g) (h : GoodStr it.text) : GoodGroup (extendGroup g it) := by
  refine ⟨by simp [extendGroup], ?_, by simp [extendGroup, hg.2.2]⟩
  intro p hp
  simp [extendGroup] at hp
  rcases hp with hp | hp
  · exact hg.2.1 p hp
  · subst hp
    exact h

theorem insertItem_good {gs : List (String × Group)} {it : RowItem}
    (hgs : ∀ kg ∈ gs, GoodGroup kg.2) (hit : GoodStr it.text) :
    ∀ kg ∈ insertItem gs it, GoodGroup kg.2 := by
  induction gs with
  | nil =>
    intro kg hkg
    simp [insertItem] at hkg
    subst hkg
    exact goodGroup_singleton hit
  | cons p rest ih =>
    obtain ⟨k, g⟩ := p
    intro kg hkg
    by_cases hk : k = it.key
    · rw [insertItem, if_pos hk] at hkg
      rcases List.mem_cons.mp hkg with h | h
      · subst h
        exact goodGroup_extend (hgs (k, g) (by simp)) hit
      · exact hgs kg (List.mem_cons_of_mem _ h)
    · rw [insertItem, if_neg hk] at hkg
      rcases List.mem_cons.mp hkg with h | h
      · subst h
        exact hgs (k, g) (by simp)
      · exact ih (fun x hx => hgs x (List.mem_cons_of_mem _ hx)) kg h

theorem buildGroups_good (items : List RowItem)
    (h : ∀ it ∈ items, GoodStr it.text) :
    ∀ kg ∈ buildGroups items, GoodGroup kg.2 := by
  suffices H : ∀ (l : List RowItem) (gs : List (String × Group)),
      (∀ it ∈ l, GoodStr it.text) → (∀ kg ∈ gs, GoodGroup kg.2) →
      ∀ kg ∈ l.foldl insertItem gs, GoodGroup kg.2 by
    exact H items [] h (by simp)
  intro l
  induction l with
  | nil => intro gs _ hgs; simpa using hgs
  | cons i tl ih =>
    intro gs hl hgs
    rw [List.foldl_cons]
    exact ih (insertItem gs i) (fun x hx => hl x (List.mem_cons_of_mem _ hx))
      (insertItem_good hgs (hl i (by simp)))

/-- On a well-formed group the empty-text skip never fires, the trim is a
no-op, and the `|| 1` denominator fallback is the group size. -/
theorem groupToBlock_eq {joiner : String} {g : Group} (h : GoodGroup g) :
    groupToBlock joiner g =
      some ⟨joinWith joiner g.parts,
            ratSum g.confs / (g.confs.length : ℚ), g.bbox⟩ := by
  have hjoin : GoodStr (joinWith joiner g.parts) :=
    goodStr_joinWith joiner g.parts h.1 h.2.1
  have htrim : jsTrim (joinWith joiner g.parts) = joinWith joiner g.parts :=
    jsTrim_eq_self hjoin
  have hne : joinWith joiner g.parts ≠ "" := goodStr_ne_empty hjoin
  have hlen : g.confs.length ≠ 0 := by
    rw [h.2.2]
    intro hc
    exact h.1 (List.eq_nil_of_length_eq_zero hc)
  unfold groupToBlock
  rw [htrim, if_neg hne, if_neg hlen]

/-! ## Lemmas: sorting and row filtering -/

theorem insertStable_perm (x : LineBlock) :
    ∀ l : List LineBlock, (insertStable x l).Perm (x :: l) := by
  intro l
  induction l with
  | nil => simp [insertStable]
  | cons y ys ih =>
    rw [insertStable]
    by_cases h : blockLE y x = true
    · rw [if_pos h]
      exact (ih.cons y).trans (List.Perm.swap x y ys)
    · rw [if_neg h]

theorem sortBlocks_perm (l : List LineBlock) : (sortBlocks l).Perm l := by
  suffices H : ∀ (l acc : List LineBlock),
      (l.foldl (fun acc x => insertStable x acc) acc).Perm (acc ++ l) by
    simpa using H l []
  intro l
  induction l with
  | nil => intro acc; simp
  | cons x xs ih =>
    intro acc
    rw [List.foldl_cons]
    refine (ih (insertStable x acc)).trans ?_
    refine ((insertStable_perm x acc).append_right xs).trans ?_
    exact List.perm_middle.symm

theorem filterMap_eq_map_of_some {α β : Type} (f : α → Option β) (g : α → β) :
    ∀ l : List α, (∀ x ∈ l, f x = some (g x)) → l.filterMap f = l.map g := by
  intro l
  induction l with
  | nil => intro _; rfl
  | cons x xs ih =>
    intro h
    rw [List.filterMap_cons, h x (by simp), List.map_cons,
      ih (fun y hy => h y (List.mem_cons_of_mem _ hy))]

/-- Everything the row loop accepts has a trimmed, non-empty text fragment. -/
theorem parseRowCols_good {h : HeaderIdx} {cols : List String} {it : RowItem}
    (hp : parseRowCols h cols = some it) : GoodStr it.text := by
  unfold parseRowCols at hp
  split at hp
  · exact absurd hp (by simp)
  · split at hp
    · split at hp
      · exact absurd hp (by simp)
      · split at hp
        · split at hp
          · exact absurd hp (by simp)
          · split at hp
            · exact absurd hp (by simp)
            · split at hp
              · split at hp
                · exact absurd hp (by simp)
                · cases hp
                  refine goodStr_jsTrim ?_
                  assumption
              · exact absurd hp (by simp)
        · exact absurd hp (by simp)
    · exact absurd hp (by simp)

/-- Everything `parseRow` accepts has a trimmed, non-empty text fragment. -/
theorem parseRow_good {h : HeaderIdx} {row : String} {it : RowItem}
    (hp : parseRow h row = some it) : GoodStr it.text :=
  parseRowCols_good hp

/-! ## Lemmas: assembling the normalizer -/

theorem participatingRows_good {h : HeaderIdx} {body : List String} :
    ∀ it ∈ participatingRows h body, GoodStr it.text := by
  intro it hit
  obtain ⟨row, _, hrow⟩ := List.mem_filterMap.mp hit
  exact parseRow_good hrow

theorem parseTsv_short {tsv joiner : String}
    (h : (tsvRows tsv).length < 2) : parseTsvToLineBlocks tsv joiner = [] := by
  unfold parseTsvToLineBlocks
  rw [if_pos h]

theorem parseTsv_eq {tsv joiner headerRow : String} {body : List String}
    {h : HeaderIdx}
    (hrows : tsvRows tsv = headerRow :: body)
    (hidx : getIdx (splitChar '\t' headerRow) = some h)
    (hbody : body ≠ []) :
    parseTsvToLineBlocks tsv joiner =
      sortBlocks ((buildGroups (participatingRows h body)).filterMap
        (fun kg => groupToBlock joiner kg.2)) := by
  obtain ⟨b, bs, rfl⟩ : ∃ b bs, body = b :: bs := by
    cases body with
    | nil => exact absurd rfl hbody
    | cons b bs => exact ⟨b, bs, rfl⟩
  unfold parseTsvToLineBlocks
  rw [hrows]
  rw [if_neg (by simp)]
  show (match getIdx (splitChar '\t' headerRow) with
        | none => []
        | some h =>
          sortBlocks ((buildGroups (participatingRows h (b :: bs))).filterMap
            (fun kg : String × Group => groupToBlock joiner kg.2))) = _
  rw [hidx]

/-- The per-group block value the claim describes. -/
theorem parseTsv_perm_groups {tsv joiner headerRow : String}
    {body : List String} {h : HeaderIdx}
    (hrows : tsvRows tsv = headerRow :: body)
    (hidx : getIdx (splitChar '\t' headerRow) = some h) :
    (parseTsvToLineBlocks tsv joiner).Perm
      ((buildGroups (participatingRows h body)).map
        (fun kg : String × Group => LineBlock.mk (joinWith joiner kg.2.parts)
          (ratSum kg.2.confs / (kg.2.confs.length : ℚ)) kg.2.bbox)) := by
  cases body with
  | nil =>
    rw [parseTsv_short (by rw [hrows]; simp)]
    rw [show participatingRows h [] = [] from rfl]
    exact List.Perm.refl _
  | cons b bs =>
    rw [parseTsv_eq hrows hidx (by simp)]
    have hgood := buildGroups_good (participatingRows h (b :: bs))
      participatingRows_good
    rw [filterMap_eq_map_of_some _ _ _
      (fun kg hkg => groupToBlock_eq (hgood kg hkg))]
    exact sortBlocks_perm _

theorem lookupGroup_fields {items : List RowItem} {key : String} {g : Group}
    (hit : ∀ it ∈ items, GoodStr it.text)
    (hg : lookupGroup (buildGroups items) key = some g) :
    ∃ i is, specGroup items key = i :: is ∧
      g.parts = (i :: is).map (·.text) ∧
      g.confs = (i :: is).map (·.conf) ∧
      g.bbox = foldBBox i.bbox (is.map (·.bbox)) ∧
      GoodGroup g := by
  rw [lookupGroup_buildGroups] at hg
  cases hsg : specGroup items key with
  | nil => rw [hsg] at hg; exact absurd hg (by simp)
  | cons i is =>
    rw [hsg] at hg
    have hgv : g = is.foldl extendGroup (singletonGroup i) := by
      cases hg; rfl
    have hparts : g.parts = (i :: is).map (·.text) := by
      rw [hgv, foldl_extendGroup_parts]
      rfl
    have hconfs : g.confs = (i :: is).map (·.conf) := by
      rw [hgv, foldl_extendGroup_confs]
      rfl
    have hbbox : g.bbox = foldBBox i.bbox (is.map (·.bbox)) := by
      rw [hgv, foldl_extendGroup_bbox]
      rfl
    have hsub : ∀ it ∈ i :: is, GoodStr it.text := by
      intro it hmem
      have : it ∈ specGroup items key := by rw [hsg]; exact hmem
      exact hit it (List.mem_filter.mp this).1
    refine ⟨i, is, rfl, hparts, hconfs, hbbox, ?_, ?_, ?_⟩
    · rw [hparts]; simp
    · intro p hp
      rw [hparts] at hp
      obtain ⟨it, hmem, rfl⟩ := List.mem_map.mp hp
      exact hsub it hmem
    · rw [hparts, hconfs]
      simp

/-! ## Claim theorems -/

unseal Rat.add Rat.mul Rat.inv in
/-- C1: For every TSV recognizer output (with the required header), the
normalizer groups the participating word-level rows by their composite
`page-block-paragraph-line` key into exactly one line block per group:
the output is a permutation (the final reading-order sort) of one block
per group, each block's text is the joiner-join of the group's fragment
texts in row order, its confidence the arithmetic mean of the group's
confidences, and its bbox the union (min of lefts/tops, max of
rights/bottoms) of the group's boxes; in particular the two spec rows
`"Hello"`/`"World"` with the space joiner yield exactly the one block
`{text: "Hello World", confidence: 85, bbox: (0,0,20,10)}`. -/
theorem parseTsv_grouping_spec (tsv joiner headerRow : String)
    (body : List String) (h : HeaderIdx)
    (hrows : tsvRows tsv = headerRow :: body)
    (hidx : getIdx (splitChar '\t' headerRow) = some h) :
    ((parseTsvToLineBlocks tsv joiner).Perm
      ((buildGroups (participatingRows h body)).map
        (fun kg : String × Group => LineBlock.mk (joinWith joiner kg.2.parts)
          (ratSum kg.2.confs / (kg.2.confs.length : ℚ)) kg.2.bbox)))
    ∧ (∀ key g,
        lookupGroup (buildGroups (participatingRows h body)) key = some g →
        ∃ i is, specGroup (participatingRows h body) key = i :: is ∧
          groupToBlock joiner g = some (LineBlock.mk
            (joinWith joiner ((i :: is).map (·.text)))
            (ratSum ((i :: is).map (·.conf)) / (((i :: is).length : ℕ) : ℚ))
            (foldBBox i.bbox (is.map (·.bbox)))))
    ∧ parseTsvToLineBlocks exampleTsv " "
        = [LineBlock.mk "Hello World" 85 ⟨0, 0, 20, 10⟩] := by
  refine ⟨parseTsv_perm_groups hrows hidx, ?_, by decide⟩
  intro key g hg
  obtain ⟨i, is, hsg, hparts, hconfs, hbbox, hgood⟩ :=
    lookupGroup_fields participatingRows_good hg
  refine ⟨i, is, hsg, ?_⟩
  rw [groupToBlock_eq hgood, hparts, hconfs, hbbox]
  simp

/-- Witness for C1 at the spec's concrete example. -/
theorem parseTsv_grouping_spec_witness :
    (tsvRows exampleTsv = exampleHeaderRow :: exampleBody) ∧
    (getIdx (splitChar '\t' exampleHeaderRow) = some exampleHeaderIdx) ∧
    parseTsvToLineBlocks exampleTsv " "
      = [LineBlock.mk "Hello World" 85 ⟨0, 0, 20, 10⟩] :=
  ⟨by decide, by decide,
   (parseTsv_grouping_spec exampleTsv " " exampleHeaderRow exampleBody
     exampleHeaderIdx (by decide) (by decide)).2.2⟩

theorem findIdx?_imp_mem {α : Type} {p : α → Bool} :
    ∀ {l : List α} {i j : Nat}, List.findIdx? p l i = some j → ∃ a ∈ l, p a := by
  intro l
  induction l with
  | nil => intro i j h; rw [List.findIdx?_nil] at h; cases h
  | cons x xs ih =>
    intro i j h
    rw [List.findIdx?_cons] at h
    by_cases hx : p x = true
    · exact ⟨x, by simp, hx⟩
    · rw [if_neg hx] at h
      obtain ⟨a, ha, hpa⟩ := ih h
      exact ⟨a, List.mem_cons_of_mem _ ha, hpa⟩

theorem findCol_some_mem {header : List String} {name : String} {i : Nat}
    (h : findCol header name = some i) : name ∈ header := by
  obtain ⟨a, ha, hpa⟩ := findIdx?_imp_mem h
  have : a = name := by simpa using hpa
  exact this ▸ ha

theorem getIdx_some_mem {header : List String} {h : HeaderIdx}
    (hh : getIdx header = some h) :
    ∀ name ∈ requiredCols, name ∈ header := by
  intro name hname
  unfold getIdx at hh
  simp only [Option.bind_eq_bind, Option.bind_eq_some] at hh
  obtain ⟨i1, h1, i2, h2, i3, h3, i4, h4, i5, h5, i6, h6, i7, h7, i8, h8,
    i9, h9, i10, h10, i11, h11, i12, h12, -⟩ := hh
  simp only [requiredCols, List.mem_cons, List.not_mem_nil, or_false] at hname
  rcases hname with rfl | rfl | rfl | rfl | rfl | rfl | rfl | rfl | rfl | rfl | rfl | rfl
  · exact findCol_some_mem h1
  · exact findCol_some_mem h2
  · exact findCol_some_mem h3
  · exact findCol_some_mem h4
  · exact findCol_some_mem h5
  · exact findCol_some_mem h6
  · exact findCol_some_mem h7
  · exact findCol_some_mem h8
  · exact findCol_some_mem h9
  · exact findCol_some_mem h10
  · exact findCol_some_mem h11
  · exact findCol_some_mem h12

/-- C8: For every TSV input whose header row lacks any one of the twelve
required named columns (level, page_num, block_num, par_num, line_num,
word_num, left, top, width, height, conf, text), normalization returns the
empty sequence of line blocks. -/
theorem parseTsv_missing_column (tsv joiner name headerRow : String)
    (body : List String)
    (hrows : tsvRows tsv = headerRow :: body)
    (hreq : name ∈ requiredCols)
    (hmiss : name ∉ splitChar '\t' headerRow) :
    parseTsvToLineBlocks tsv joiner = [] := by
  have hidx : getIdx (splitChar '\t' headerRow) = none := by
    cases hgi : getIdx (splitChar '\t' headerRow) with
    | none => rfl
    | some h => exact absurd (getIdx_some_mem hgi name hreq) hmiss
  cases body with
  | nil => exact parseTsv_short (by rw [hrows]; simp)
  | cons b bs =>
    unfold parseTsvToLineBlocks
    rw [hrows]
    rw [if_neg (by simp)]
    show (match getIdx (splitChar '\t' headerRow) with
          | none => []
          | some h =>
            sortBlocks ((buildGroups (participatingRows h (b :: bs))).filterMap
              (fun kg : String × Group => groupToBlock joiner kg.2))) = []
    rw [hidx]

/-- Witness for C8: a TSV without the `conf` column normalizes to `[]`. -/
theorem parseTsv_missing_column_witness :
    (tsvRows noConfTsv
      = noConfHeaderRow :: ["5\t1\t1\t1\t1\t1\t0\t0\t10\t10\tHello"]) ∧
    ("conf" ∈ requiredCols) ∧
    ("conf" ∉ splitChar '\t' noConfHeaderRow) ∧
    parseTsvToLineBlocks noConfTsv " " = [] :=
  ⟨by decide, by decide, by decide,
   parseTsv_missing_column noConfTsv " " "conf" noConfHeaderRow
     ["5\t1\t1\t1\t1\t1\t0\t0\t10\t10\tHello"]
     (by decide) (by decide) (by decide)⟩

/-- Inversion of the row loop: what must hold of a participating row. -/
theorem parseRowCols_some_facts {h : HeaderIdx} {cols : List String}
    {it : RowItem} (hp : parseRowCols h cols = some it) :
    colNum cols h.level = some 5 ∧
    (∃ w, colNum cols h.word = some w ∧ 0 < w) ∧
    colNum cols h.conf = some it.conf ∧
    0 ≤ it.conf ∧
    it.text = jsTrim (colStr cols h.text) ∧
    it.text ≠ "" := by
  unfold parseRowCols at hp
  split at hp
  · exact absurd hp (by simp)
  · split at hp
    · rename_i hlevel hword
      split at hp
      · exact absurd hp (by simp)
      · rename_i hguard
        push_neg at hguard
        split at hp
        · rename_i hconf
          split at hp
          · exact absurd hp (by simp)
          · rename_i hcneg
            split at hp
            · exact absurd hp (by simp)
            · rename_i htext
              split at hp
              · split at hp
                · exact absurd hp (by simp)
                · cases hp
                  refine ⟨by rw [hlevel, hguard.1], ⟨_, hword, hguard.2⟩,
                          hconf, le_of_not_lt hcneg, rfl, htext⟩
              · exact absurd hp (by simp)
        · exact absurd hp (by simp)
    · exact absurd hp (by simp)

unseal Rat.add Rat.mul Rat.inv in
/-- Counterexample to C4 as stated: a word row whose confidence equals 0 is
NOT skipped — the loop's guard is `conf < 0`, so the zero-confidence row
participates and produces a block. -/
theorem tsv_conf_zero_not_skipped :
    parseTsvToLineBlocks confZeroTsv " " ≠ [] ∧
    parseTsvToLineBlocks confZeroTsv " " = [LineBlock.mk "Hi" 0 ⟨0, 0, 10, 10⟩] := by
  have heval : parseTsvToLineBlocks confZeroTsv " "
      = [LineBlock.mk "Hi" 0 ⟨0, 0, 10, 10⟩] := by decide
  exact ⟨by rw [heval]; simp, heval⟩

unseal Rat.add Rat.mul Rat.inv in
/-- C4 (amended): In the TSV fallback parse, only rows at the finest
(word/leaf) granularity — level 5 with a finite positive word number —
participate, and every row with NEGATIVE (or NaN) confidence or empty
trimmed text is skipped individually rather than fatally: the offending
row contributes nothing while the remaining rows still produce blocks.  A
word row whose confidence equals 0 participates (the source guard is
`conf < 0`, not `conf <= 0`). -/
theorem tsv_row_filtering (h : HeaderIdx) (row : String)
    (body1 body2 : List String) :
    (parseRow h row = none →
        participatingRows h (body1 ++ row :: body2)
          = participatingRows h (body1 ++ body2))
    ∧ (∀ it, parseRow h row = some it →
        colNum (splitChar '\t' row) h.level = some 5 ∧
        (∃ w, colNum (splitChar '\t' row) h.word = some w ∧ 0 < w) ∧
        0 ≤ it.conf ∧ it.text ≠ "")
    ∧ (∀ c, colNum (splitChar '\t' row) h.conf = some c → c < 0 →
        parseRow h row = none)
    ∧ (jsTrim (colStr (splitChar '\t' row) h.text) = "" →
        parseRow h row = none)
    ∧ parseTsvToLineBlocks confZeroTsv " "
        = [LineBlock.mk "Hi" 0 ⟨0, 0, 10, 10⟩] := by
  refine ⟨?_, ?_, ?_, ?_, by decide⟩
  · intro hnone
    unfold participatingRows
    rw [List.filterMap_append, List.filterMap_append, List.filterMap_cons, hnone]
  · intro it hp
    obtain ⟨hl, hw, _, hc0, _, hne⟩ := parseRowCols_some_facts hp
    exact ⟨hl, hw, hc0, hne⟩
  · intro c hc hneg
    cases hp : parseRow h row with
    | none => rfl
    | some it =>
      obtain ⟨_, _, hconf, hc0, _, _⟩ := parseRowCols_some_facts hp
      rw [hc] at hconf
      cases hconf
      exact absurd hneg (not_lt.mpr hc0)
  · intro htext
    cases hp : parseRow h row with
    | none => rfl
    | some it =>
      obtain ⟨_, _, _, _, hteq, hne⟩ := parseRowCols_some_facts hp
      exact absurd (hteq.trans htext) hne

/-- Witness for C4 (amended): a negative-confidence row is skipped without
disturbing the rows around it. -/
theorem tsv_row_filtering_witness :
    parseRow exampleHeaderIdx negConfRow = none ∧
    participatingRows exampleHeaderIdx ([] ++ negConfRow :: exampleBody)
      = participatingRows exampleHeaderIdx ([] ++ exampleBody) :=
  ⟨by decide,
   (tsv_row_filtering exampleHeaderIdx negConfRow [] exampleBody).1 (by decide)⟩

/-- C2: The resolver tries the three tiers strictly in the order
referrer-spoofed, direct, relayed, suppressing each tier's exception until
the last: a tier-1 success stops the chain, the relayed tier is attempted
exactly once and only when tiers 1 and 2 have both failed, its result is
the one returned, and when all three tiers fail the resolver fails with
the relayed tier's error without re-trying tier 1 or tier 2 (each of the
first two tiers appears exactly once in the attempt trace). -/
theorem fetch_fallback_tiers (t1 t2 : Except String Blob)
    (t3resp : Option ContentResponse) :
    ((fetchWithFallback t1 t2 t3resp).2 = [Tier.referrer]
      ∨ (fetchWithFallback t1 t2 t3resp).2 = [Tier.referrer, Tier.direct]
      ∨ (fetchWithFallback t1 t2 t3resp).2
          = [Tier.referrer, Tier.direct, Tier.relayed])
    ∧ ((fetchWithFallback t1 t2 t3resp).2.count Tier.relayed
        = if t1.isOk = false ∧ t2.isOk = false then 1 else 0)
    ∧ (∀ b, t1 = Except.ok b →
        fetchWithFallback t1 t2 t3resp = (Except.ok b, [Tier.referrer]))
    ∧ (∀ e1 b, t1 = Except.error e1 → t2 = Except.ok b →
        fetchWithFallback t1 t2 t3resp
          = (Except.ok b, [Tier.referrer, Tier.direct]))
    ∧ (∀ e1 e2, t1 = Except.error e1 → t2 = Except.error e2 →
        (fetchWithFallback t1 t2 t3resp).1 = fetchImageViaContent t3resp ∧
        (fetchWithFallback t1 t2 t3resp).2.count Tier.referrer = 1 ∧
        (fetchWithFallback t1 t2 t3resp).2.count Tier.direct = 1 ∧
        (∀ e3, fetchImageViaContent t3resp = Except.error e3 →
          (fetchWithFallback t1 t2 t3resp).1 = Except.error e3)) := by
  cases t1 with
  | ok b =>
    refine ⟨Or.inl rfl,
      by simp [fetchWithFallback, Except.isOk, Except.toBool], ?_, ?_, ?_⟩
    · intro b' hb; cases hb; rfl
    · intro e1 b' hb; cases hb
    · intro e1 e2 hb; cases hb
  | error e1 =>
    cases t2 with
    | ok b =>
      refine ⟨Or.inr (Or.inl rfl),
        by simp [fetchWithFallback, Except.isOk, Except.toBool], ?_, ?_, ?_⟩
      · intro b' hb; cases hb
      · intro e1' b' _ hb; cases hb; rfl
      · intro e1' e2 _ hb; cases hb
    | error e2 =>
      refine ⟨Or.inr (Or.inr rfl),
        by simp [fetchWithFallback, Except.isOk, Except.toBool], ?_, ?_, ?_⟩
      · intro b' hb; cases hb
      · intro e1' b' _ hb; cases hb
      · intro e1' e2' _ _
        refine ⟨rfl, rfl, rfl, ?_⟩
        intro e3 h3
        show fetchImageViaContent t3resp = Except.error e3
        exact h3

/-- Witness for C2: with both first tiers failing and no relay reply, the
relayed tier is the one attempted last and its error is returned. -/
theorem fetch_fallback_tiers_witness :
    (fetchWithFallback (Except.error "t1 down") (Except.error "t2 down") none).1
      = Except.error "Unknown content fetch error" ∧
    (fetchWithFallback (Except.error "t1 down") (Except.error "t2 down") none).2
      = [Tier.referrer, Tier.direct, Tier.relayed] :=
  ⟨((fetch_fallback_tiers (Except.error "t1 down") (Except.error "t2 down")
      none).2.2.2.2 "t1 down" "t2 down" rfl rfl).2.2.2
      "Unknown content fetch error" rfl,
   by decide⟩

/-- C10: For every invocation of the referrer-spoofed fetch with a
non-empty referrer, the request-header and response-header interceptors
installed at the start of the call are both removed on every exit path
(the outcome — success, non-ok status, or thrown error — is arbitrary),
so the globally installed interceptor list after the call equals the one
before it. -/
theorem interceptors_balanced (referrer : String) (id1 id2 : Nat)
    (outcome : Except String JsResponse) (listeners : List Nat)
    (href : referrer ≠ "") (h1 : id1 ∉ listeners) (h2 : id2 ∉ listeners) :
    (fetchImageWithReferrer referrer id1 id2 outcome listeners).2 = listeners := by
  unfold fetchImageWithReferrer
  rw [if_neg href]
  show ((listeners ++ [id1, id2]).erase id1).erase id2 = listeners
  rw [List.erase_append_right _ h1]
  have : ([id1, id2].erase id1) = [id2] := by simp
  rw [this, List.erase_append_right _ h2]
  simp

/-- Witness for C10 on all three exit paths at a concrete call. -/
theorem interceptors_balanced_witness :
    (("https://example.com/page" : String) ≠ "") ∧
    (fetchImageWithReferrer "https://example.com/page" 7 8
      (Except.error "NetworkError") [3]).2 = [3] ∧
    (fetchImageWithReferrer "https://example.com/page" 7 8
      (Except.ok ⟨true, 200, ⟨[1, 2]⟩⟩) [3]).2 = [3] ∧
    (fetchImageWithReferrer "https://example.com/page" 7 8
      (Except.ok ⟨false, 403, ⟨[]⟩⟩) [3]).2 = [3] :=
  ⟨by decide,
   interceptors_balanced _ 7 8 (Except.error "NetworkError") [3]
     (by decide) (by decide) (by decide),
   interceptors_balanced _ 7 8 (Except.ok ⟨true, 200, ⟨[1, 2]⟩⟩) [3]
     (by decide) (by decide) (by decide),
   interceptors_balanced _ 7 8 (Except.ok ⟨false, 403, ⟨[]⟩⟩) [3]
     (by decide) (by decide) (by decide)⟩

theorem processBlock_none {tr : String → String} {st : LoopState}
    {b : OcrBlock} (hs : surviving b = none) :
    (processBlock tr st b).calls = st.calls ∧
    (processBlock tr st b).translatedBlocks = st.translatedBlocks := by
  unfold processBlock
  by_cases h1 : blockConfidence b < MIN_CONFIDENCE
  · rw [if_pos h1]; exact ⟨rfl, rfl⟩
  · rw [if_neg h1]
    by_cases h2 : jsTrim (b.text.getD "") = ""
    · rw [if_pos h2]; exact ⟨rfl, rfl⟩
    · rw [if_neg h2]
      cases hb : b.bbox with
      | none => exact ⟨rfl, rfl⟩
      | some bb =>
        exfalso
        unfold surviving at hs
        rw [if_neg h1, if_neg h2, hb] at hs
        exact absurd hs (by simp)

theorem processBlock_some {tr : String → String} {st : LoopState}
    {b : OcrBlock} {tb : String × RawBBox} (hs : surviving b = some tb) :
    (processBlock tr st b).calls = st.calls ++ [tb.1] ∧
    (processBlock tr st b).translatedBlocks
      = st.translatedBlocks ++ [TranslatedBlock.mk (tr tb.1) tb.1 tb.2] := by
  unfold surviving at hs
  unfold processBlock
  by_cases h1 : blockConfidence b < MIN_CONFIDENCE
  · rw [if_pos h1] at hs; cases hs
  · rw [if_neg h1] at hs ⊢
    by_cases h2 : jsTrim (b.text.getD "") = ""
    · rw [if_pos h2] at hs; cases hs
    · rw [if_neg h2] at hs ⊢
      cases hb : b.bbox with
      | none =>
        rw [hb] at hs
        exact absurd hs (by simp)
      | some bb =>
        rw [hb] at hs
        cases hs
        exact ⟨rfl, rfl⟩

theorem processBlocks_acc (tr : String → String) :
    ∀ (blocks : List OcrBlock) (st : LoopState),
      (blocks.foldl (processBlock tr) st).calls
          = st.calls ++ (blocks.filterMap surviving).map Prod.fst ∧
      (blocks.foldl (processBlock tr) st).translatedBlocks
          = st.translatedBlocks ++ (blocks.filterMap surviving).map
              (fun tb => TranslatedBlock.mk (tr tb.1) tb.1 tb.2) := by
  intro blocks
  induction blocks with
  | nil => intro st; simp
  | cons b bs ih =>
    intro st
    rw [List.foldl_cons, List.filterMap_cons]
    cases hs : surviving b with
    | none =>
      obtain ⟨hc, hb⟩ := @processBlock_none tr st b hs
      obtain ⟨ihc, ihb⟩ := ih (processBlock tr st b)
      exact ⟨by rw [ihc, hc], by rw [ihb, hb]⟩
    | some tb =>
      obtain ⟨hc, hb⟩ := @processBlock_some tr st b tb hs
      obtain ⟨ihc, ihb⟩ := ih (processBlock tr st b)
      constructor
      · rw [ihc, hc, List.map_cons, List.append_assoc]
        rfl
      · rw [ihb, hb, List.map_cons, List.append_assoc]
        rfl

/-- Counterexample to C5 as stated: in the DeepL-based variant the
translator collaborator is NOT invoked once per block — two surviving
blocks produce a single batched API call. -/
theorem deepl_batched_call :
    (deeplTranslateStep (fun ts => ts) exampleP0Blocks).2.length = 1 ∧
    exampleP0Blocks.length = 2 ∧
    (deeplTranslateStep (fun ts => ts) exampleP0Blocks).2.length
      ≠ exampleP0Blocks.length := by
  refine ⟨rfl, rfl, ?_⟩
  intro h
  simp [deeplTranslateStep, exampleP0Blocks] at h

/-- C5 (amended): In the on-device pipeline (background.js) the translator
collaborator is invoked once per surviving block, sequentially in block
order (the call trace lists exactly the surviving texts in order), and the
translated output preserves the input block order.  The DeepL-based
variant (part_000) instead performs ONE batched API call carrying all
block texts; its output also preserves block order (positional zip). -/
theorem translation_invocation (tr : String → String) (blocks : List OcrBlock)
    (api : List String → List String) (p0blocks : List P0Block) :
    ((processBlocks tr blocks).calls
        = (blocks.filterMap surviving).map Prod.fst)
    ∧ ((processBlocks tr blocks).translatedBlocks
        = (blocks.filterMap surviving).map
            (fun tb => TranslatedBlock.mk (tr tb.1) tb.1 tb.2))
    ∧ ((deeplTranslateStep api p0blocks).2 = [p0blocks.map (·.text)])
    ∧ ((api (p0blocks.map (·.text))).length = p0blocks.length →
        (deeplTranslateStep api p0blocks).1
          = Except.ok (p0blocks.zipWith
              (fun b t => P0Translated.mk t b.text b.bbox b.isVertical)
              (api (p0blocks.map (·.text))))) := by
  obtain ⟨hc, hb⟩ := processBlocks_acc tr blocks initLoopState
  refine ⟨by simpa [processBlocks, initLoopState] using hc,
          by simpa [processBlocks, initLoopState] using hb, ?_, ?_⟩
  · by_cases hl : (api (p0blocks.map (·.text))).length = p0blocks.length
    · simp [deeplTranslateStep, hl]
    · simp [deeplTranslateStep, hl]
  · intro hlen
    simp [deeplTranslateStep, hlen]

/-- Witness for C5 (amended) at a concrete two-block input. -/
theorem translation_invocation_witness :
    ((api0 (exampleP0Blocks.map (·.text))).length = exampleP0Blocks.length) ∧
    (deeplTranslateStep api0 exampleP0Blocks).1
      = Except.ok (exampleP0Blocks.zipWith
          (fun b t => P0Translated.mk t b.text b.bbox b.isVertical)
          (api0 (exampleP0Blocks.map (·.text)))) ∧
    (deeplTranslateStep api0 exampleP0Blocks).2
      = [["Hola", "Mundo"]] ∧
    (processBlocks (fun s => s) [noBboxBlock]).calls = [] :=
  ⟨by decide,
   (translation_invocation (fun s => s) [noBboxBlock] api0 exampleP0Blocks).2.2.2
     (by decide),
   by decide,
   by
     have := (translation_invocation (fun s => s) [noBboxBlock] api0
       exampleP0Blocks).1
     simpa using this⟩

/-- C7: the pipeline's skip counters at the failing input: a block with
usable confidence and text but no bbox is dropped (no output, no
translator call), yet `skippedNoBbox` stays 0 because the source's
duplicated `if (!bbox) continue;` guard makes the counting branch dead
code.  The run still completes with zero surviving blocks (no failure
path exists in the loop). -/
theorem bbox_counter_dead :
    processBlocks (fun s => s) [noBboxBlock]
      = ⟨[], 0, 0, 0, []⟩ ∧
    surviving noBboxBlock = none ∧
    (processBlocks (fun s => s) [noBboxBlock]).skippedNoBbox = 0 := by
  refine ⟨?_, ?_, ?_⟩ <;> decide

/-- C6: For every translated block the overlay renderer computes
`scaleX = displayedWidth / nativeWidth`, `scaleY = displayedHeight /
nativeHeight` and places the block's region at the native top-left scaled
by `(scaleX, scaleY)` with the native width/height scaled likewise (font
size 80% of the scaled height); in particular native bbox (100,100,200,150)
with nativeWidth 1000, displayed width 500 and Y scale 0.5 yields a region
at (50,50) sized 50×25. -/
theorem overlay_scaling (dW dH nW nH : ℚ) (blocks : List TranslatedBlock) :
    (overlayTranslations dW dH nW nH blocks
      = blocks.map (fun b => OverlayRegion.mk
          (b.bbox.x0 * dW / nW) (b.bbox.y0 * dH / nH)
          ((b.bbox.x1 - b.bbox.x0) * dW / nW)
          ((b.bbox.y1 - b.bbox.y0) * dH / nH)
          ((b.bbox.y1 - b.bbox.y0) * dH / nH * (4 / 5))))
    ∧ overlayRegion 500 300 1000 600 ⟨100, 100, 200, 150⟩
        = OverlayRegion.mk 50 50 50 25 20 := by
  constructor
  · unfold overlayTranslations overlayRegion
    simp only [mul_div_assoc]
  · unfold overlayRegion
    norm_num

theorem scanDiscover_acc (minSize : Nat) :
    ∀ (doc : List ImgEl) (acc : List ImgEl × List ImgEl),
      doc.foldl
        (fun (acc : List ImgEl × List ImgEl) img =>
          if imgSkipped minSize img then (acc.1 ++ [img], acc.2)
          else (acc.1 ++ [markQueued img], acc.2 ++ [markQueued img])) acc
      = (acc.1 ++ doc.map (fun i => if imgSkipped minSize i then i else markQueued i),
         acc.2 ++ (doc.filter (fun i => !imgSkipped minSize i)).map markQueued) := by
  intro doc
  induction doc with
  | nil => intro acc; simp
  | cons i tl ih =>
    intro acc
    rw [List.foldl_cons]
    by_cases hs : imgSkipped minSize i
    · rw [if_pos hs, ih]
      simp [hs, List.filter_cons, List.append_assoc]
    · rw [if_neg hs, ih]
      simp [hs, List.filter_cons, List.append_assoc]

theorem markQueued_skipped (minSize : Nat) (i : ImgEl) :
    imgSkipped minSize (markQueued i) = true := by
  unfold imgSkipped markQueued
  simp

theorem scanDiscover_eq (minSize : Nat) (doc : List ImgEl) :
    scanDiscover minSize doc
      = (doc.map (fun i => if imgSkipped minSize i then i else markQueued i),
         (doc.filter (fun i => !imgSkipped minSize i)).map markQueued) := by
  unfold scanDiscover
  rw [scanDiscover_acc]
  simp

/-- C9: Discovery is idempotent: every enqueued task's image element is
marked with the non-empty status `"queued"`, an element already carrying a
non-empty status (or one below the size threshold) is never enqueued — the
enqueued list is exactly the eligible elements — and re-running discovery
on the resulting document (with no newly added images and no failure
resets) enqueues zero additional tasks. -/
theorem discovery_idempotent (minSize : Nat) (doc : List ImgEl) :
    (∀ img ∈ (scanDiscover minSize doc).2, img.status = "queued")
    ∧ ((scanDiscover minSize doc).2
        = (doc.filter (fun i => !imgSkipped minSize i)).map markQueued)
    ∧ ((scanDiscover minSize doc).1
        = doc.map (fun i => if imgSkipped minSize i then i else markQueued i))
    ∧ (scanDiscover minSize ((scanDiscover minSize doc).1)).2 = [] := by
  have h2 : (scanDiscover minSize doc).2
      = (doc.filter (fun i => !imgSkipped minSize i)).map markQueued := by
    rw [scanDiscover_eq]
  have h1 : (scanDiscover minSize doc).1
      = doc.map (fun i => if imgSkipped minSize i then i else markQueued i) := by
    rw [scanDiscover_eq]
  refine ⟨?_, h2, h1, ?_⟩
  · intro img hmem
    rw [h2] at hmem
    obtain ⟨i, _, rfl⟩ := List.mem_map.mp hmem
    rfl
  · rw [scanDiscover_eq, h1]
    show (List.filter _ _).map markQueued = []
    rw [List.filter_eq_nil_iff.mpr, List.map_nil]
    intro a ha
    obtain ⟨i, _, rfl⟩ := List.mem_map.mp ha
    by_cases hs : imgSkipped minSize i
    · simp [hs]
    · simp [hs, markQueued_skipped]

theorem countP_set_add (p : TStatus → Bool) :
    ∀ (l : List TStatus) (i : Nat) (x y : TStatus), l[i]? = some y →
      (l.set i x).countP p + (if p y then 1 else 0)
        = l.countP p + (if p x then 1 else 0) := by
  intro l
  induction l with
  | nil => intro i x y h; simp at h
  | cons a tl ih =>
    intro i x y h
    cases i with
    | zero =>
      simp at h
      subst h
      rw [List.set_cons_zero, List.countP_cons, List.countP_cons]
      omega
    | succ n =>
      rw [List.getElem?_cons_succ] at h
      rw [List.set_cons_succ, List.countP_cons, List.countP_cons]
      have := ih n x y h
      omega

theorem qinv_init (n : Nat) : QInv (initQState n) := by
  refine ⟨?_, by simp [initQState, MAX_CONCURRENT], ?_, ?_⟩
  · unfold initQState procCount
    simp [List.countP_replicate]
  · intro i hi
    unfold initQState at hi ⊢
    simp only at hi ⊢
    rw [List.getElem?_replicate, if_pos (List.mem_range.mp hi)]
  · exact List.nodup_range n

theorem qinv_step {s : QState} {l : QLabel} {s' : QState}
    (hinv : QInv s) (hstep : QStep s l s') : QInv s' := by
  obtain ⟨hcnt, hmax, hq, hnd⟩ := hinv
  cases hstep with
  | dispatch hact hqueue =>
    rename_i i rest
    have hi : s.stat[i]? = some TStatus.queued := hq i (by rw [hqueue]; simp)
    have hnd' : (i :: rest).Nodup := hqueue ▸ hnd
    have hcnt' := countP_set_add (fun st => decide (st = TStatus.processing))
      s.stat i TStatus.processing TStatus.queued hi
    simp only [decide_eq_true_eq, if_pos, if_neg, reduceCtorEq, decide_True,
      decide_False, if_true, if_false] at hcnt'
    refine ⟨?_, ?_, ?_, ?_⟩
    · show s.active + 1 = procCount ⟨s.stat.set i TStatus.processing, rest, s.active + 1⟩
      unfold procCount at hcnt ⊢
      simp only at hcnt' ⊢
      omega
    · show s.active + 1 ≤ MAX_CONCURRENT
      unfold MAX_CONCURRENT at hact ⊢
      omega
    · intro j hj
      have hjq : j ∈ s.queue := by rw [hqueue]; exact List.mem_cons_of_mem _ hj
      have hji : i ≠ j := by
        intro hij
        subst hij
        exact (List.nodup_cons.mp hnd').1 hj
      show (s.stat.set i TStatus.processing)[j]? = some TStatus.queued
      rw [List.getElem?_set_ne hji]
      exact hq j hjq
    · exact (List.nodup_cons.mp hnd').2
  | finish hproc =>
    rename_i i ok
    have hcnt' := countP_set_add (fun st => decide (st = TStatus.processing))
      s.stat i (if ok then TStatus.done else TStatus.failed)
      TStatus.processing hproc
    have hx : (decide ((if ok then TStatus.done else TStatus.failed)
        = TStatus.processing)) = false := by
      cases ok <;> simp
    simp [hx] at hcnt'
    refine ⟨?_, ?_, ?_, ?_⟩
    · show s.active - 1 = procCount
        ⟨s.stat.set i (if ok then TStatus.done else TStatus.failed), s.queue,
         s.active - 1⟩
      unfold procCount at hcnt ⊢
      simp only at hcnt' ⊢
      omega
    · show s.active - 1 ≤ MAX_CONCURRENT
      omega
    · intro j hj
      have hji : i ≠ j := by
        intro hij
        rw [hij, hq j hj] at hproc
        cases hproc
      show (s.stat.set i _)[j]? = some TStatus.queued
      rw [List.getElem?_set_ne hji]
      exact hq j hj
    · exact hnd

theorem qinv_reachable {n : Nat} {s : QState} (h : QReachable n s) : QInv s := by
  unfold QReachable at h
  induction h with
  | refl => exact qinv_init n
  | tail hsteps hstep ih =>
    obtain ⟨l, hl⟩ := hstep
    exact qinv_step ih hl

/-- C3: With `MAX_CONCURRENT = 1`, in every reachable state of the
queue/scheduler step relation the active-processor count never exceeds 1
and at most one task is in `processing` state, so no two tasks are ever
processing concurrently; moreover whenever a dispatch step is enabled,
every previously dispatched task (any task no longer `queued`) has already
reached a terminal state (`done` or `failed`), so a queued task is
dispatched only after the previously dispatched task terminates. -/
theorem queue_concurrency (n : Nat) (s : QState) (hr : QReachable n s) :
    s.active ≤ MAX_CONCURRENT ∧
    procCount s ≤ MAX_CONCURRENT ∧
    (∀ (i : Nat) (s' : QState), QStep s (QLabel.dispatch i) s' →
      ∀ (j : Nat) (st : TStatus), s.stat[j]? = some st → st ≠ TStatus.queued →
        st = TStatus.done ∨ st = TStatus.failed) := by
  obtain ⟨hcnt, hmax, hq, hnd⟩ := qinv_reachable hr
  refine ⟨hmax, by rw [← hcnt]; exact hmax, ?_⟩
  intro i s' hstep j st hj hst
  cases hstep with
  | dispatch hact hqueue =>
    have hzero : procCount s = 0 := by
      unfold MAX_CONCURRENT at hact
      omega
    have hnp : st ≠ TStatus.processing := by
      intro hp
      subst hp
      have hmem : TStatus.processing ∈ s.stat := List.getElem?_mem hj
      have := (List.countP_eq_zero.mp hzero) _ hmem
      simp at this
    cases st with
    | queued => exact absurd rfl hst
    | processing => exact absurd rfl hnp
    | done => exact Or.inl rfl
    | failed => exact Or.inr rfl

/-- Witness for C3: the state after dispatching the first of three tasks
is reachable and satisfies the concurrency bound. -/
theorem queue_concurrency_witness :
    QReachable 3 qStateAfterFirstDispatch ∧
    (qStateAfterFirstDispatch.active ≤ MAX_CONCURRENT ∧
     procCount qStateAfterFirstDispatch ≤ MAX_CONCURRENT ∧
     (∀ (i : Nat) (s' : QState),
        QStep qStateAfterFirstDispatch (QLabel.dispatch i) s' →
       ∀ (j : Nat) (st : TStatus),
         qStateAfterFirstDispatch.stat[j]? = some st →
         st ≠ TStatus.queued →
         st = TStatus.done ∨ st = TStatus.failed)) := by
  have hr : QReachable 3 qStateAfterFirstDispatch :=
    Relation.ReflTransGen.single
      ⟨QLabel.dispatch 0, QStep.dispatch (by decide) (by decide)⟩
  exact ⟨hr, queue_concurrency 3 _ hr⟩

/-- Witness for C9 at a concrete document: the eligible image is enqueued
marked `"queued"`, and a re-scan of the updated document enqueues nothing. -/
theorem discovery_idempotent_witness :
    (ImgEl.mk 100 100 "queued") ∈ (scanDiscover 50 discoveryDoc).2 ∧
    (ImgEl.mk 100 100 "queued").status = "queued" ∧
    (scanDiscover 50 ((scanDiscover 50 discoveryDoc).1)).2 = [] :=
  ⟨by decide,
   (discovery_idempotent 50 discoveryDoc).1 (ImgEl.mk 100 100 "queued")
     (by decide),
   (discovery_idempotent 50 discoveryDoc).2.2.2⟩

/-- Witness for C6 at the spec's concrete scaling example. -/
theorem overlay_scaling_witness :
    overlayRegion 500 300 1000 600 ⟨100, 100, 200, 150⟩
      = OverlayRegion.mk 50 50 50 25 20 :=
  (overlay_scaling 500 300 1000 600 []).2

end SBS
